import Mathlib

/-!
Verification development for the chroma-key extraction pipeline
(`remove_background_advanced` in `gemini_transparent_background/advanced.py`).

Modelling conventions:
* 8-bit channel values are `Nat`s; operations that wrap in `uint8`
  (numpy subtraction, `astype(np.uint8)`) take an explicit `% 256`.
* `float64` arithmetic (despill scaling, the alpha 0.0–1.0 round trip, the
  Gaussian blur) is modelled as exact rational arithmetic over `ℚ`;
  `astype(np.uint8)` on a float array is truncation toward zero followed by
  the modular wrap.
* Images are lists of rows; OpenCV buffers are rectangular, which theorems
  assume explicitly where they need it.
-/

namespace ChromaKey

/-- A 3-channel pixel in OpenCV's BGR channel order, one `Nat` per 8-bit
channel. -/
structure Pix3 where
  b : Nat
  g : Nat
  r : Nat
  deriving Repr, DecidableEq

/-- A 4-channel BGRA pixel: the despilled color channels plus the alpha
channel attached by the compositor. -/
structure Pix4 where
  b : Nat
  g : Nat
  r : Nat
  a : Nat
  deriving Repr, DecidableEq

/-- A hue/saturation/value triple (OpenCV 8-bit convention: hue in 0–180). -/
structure HSV where
  h : Nat
  s : Nat
  v : Nat
  deriving Repr, DecidableEq

/-- A pixel buffer: a list of rows. -/
abbrev Image (α : Type) : Type := List (List α)

/-- Entry of an image at row `i`, column `j`, with default `d` out of range. -/
def px {α : Type} (m : Image α) (d : α) (i j : Nat) : α :=
  (m.getD i []).getD j d

/-- Row count and per-row lengths: the shape every stage must preserve. -/
def dims {α : Type} (m : Image α) : List Nat :=
  m.map List.length

/-- `cv2.cvtColor(img, cv2.COLOR_BGR2HSV)` on one 8-bit pixel.
OpenCV computes `v = max(b,g,r)`, `s = round(255*(v-min)/v)` (0 when `v = 0`)
and the hue from the dominant channel, halved into 0–180 with wrap-around
for negative values.  OpenCV evaluates this with fixed-point divide tables;
we model the underlying real-valued formula with round-to-nearest, which
agrees on every pixel this development evaluates. -/
def bgr2hsv (p : Pix3) : HSV :=
  let v : Nat := max p.b (max p.g p.r)
  let mn : Nat := min p.b (min p.g p.r)
  let diff : Nat := v - mn
  let s : Nat := if v = 0 then 0 else (round ((255 * (diff : ℚ)) / v)).toNat
  let hraw : ℚ :=
    if diff = 0 then 0
    else if v = p.r then 60 * ((p.g : ℚ) - (p.b : ℚ)) / diff
    else if v = p.g then 120 + 60 * ((p.b : ℚ) - (p.r : ℚ)) / diff
    else 240 + 60 * ((p.r : ℚ) - (p.g : ℚ)) / diff
  let hdeg : ℚ := if hraw < 0 then hraw + 360 else hraw
  ⟨(round (hdeg / 2)).toNat, s, v⟩

/-- `cv2.inRange(hsv, lower, upper)` on one pixel: 255 when every component
lies inclusively between the corresponding bounds, else 0. -/
def inRangePx (lo hi : HSV) (q : HSV) : Nat :=
  if lo.h ≤ q.h ∧ q.h ≤ hi.h ∧ lo.s ≤ q.s ∧ q.s ≤ hi.s ∧
      lo.v ≤ q.v ∧ q.v ≤ hi.v then 255 else 0

/-- The parameter set of `remove_background_advanced`, with its Python
defaults.  `despill_strength` is a `float` (modelled as `ℚ`), the iteration
counts and the feather amount are Python `int`s (modelled as `ℤ`, since the
code only guards them with `> 0` and never rejects negatives). -/
structure Params where
  despill_strength : ℚ := 7 / 10
  feather_amount : Int := 5
  erode_iterations : Int := 0
  dilate_iterations : Int := 1
  lower_green : HSV := ⟨35, 100, 100⟩
  upper_green : HSV := ⟨85, 255, 255⟩
  deriving Repr, DecidableEq

/-- Stage 1, the Color Classifier: HSV conversion followed by `cv2.inRange`
with the configured bounds. -/
def classifyMask (p : Params) (img : Image Pix3) : Image Nat :=
  img.map (List.map (fun q => inRangePx p.lower_green p.upper_green (bgr2hsv q)))

/-- Sample of a mask at integer offsets, as the 3×3 morphology kernel sees
it: `d` is the constant border value (`cv2.erode`/`cv2.dilate` use
`BORDER_CONSTANT` with +∞ resp. −∞, which for 8-bit data is 255 resp. 0). -/
def at2 (m : Image Nat) (d : Nat) (i j : Int) : Nat :=
  if 0 ≤ i ∧ 0 ≤ j then (m.getD i.toNat []).getD j.toNat d else d

/-- The nine samples of the fixed `np.ones((3,3))` structuring element
centred at `(i, j)`. -/
def nbhd (m : Image Nat) (d : Nat) (i j : Nat) : List Nat :=
  ([-1, 0, 1] : List Int).flatMap (fun di =>
    ([-1, 0, 1] : List Int).map (fun dj => at2 m d ((i : Int) + di) ((j : Int) + dj)))

/-- Applies `f i j` at every position of `m`, keeping the shape. -/
def mapGrid {α β : Type} (f : Nat → Nat → β) (m : Image α) : Image β :=
  (List.range m.length).map (fun i =>
    (List.range (m.getD i []).length).map (fun j => f i j))

/-- One `cv2.erode` pass: minimum over the 3×3 neighbourhood, border +∞. -/
def erode1 (m : Image Nat) : Image Nat :=
  mapGrid (fun i j => (nbhd m 255 i j).foldr min 255) m

/-- One `cv2.dilate` pass: maximum over the 3×3 neighbourhood, border −∞. -/
def dilate1 (m : Image Nat) : Image Nat :=
  mapGrid (fun i j => (nbhd m 0 i j).foldr max 0) m

/-- `iterations=n` erosion. -/
def erodeN : Nat → Image Nat → Image Nat
  | 0, m => m
  | n + 1, m => erodeN n (erode1 m)

/-- `iterations=n` dilation. -/
def dilateN : Nat → Image Nat → Image Nat
  | 0, m => m
  | n + 1, m => dilateN n (dilate1 m)

/-- Stage 2, the Mask Refiner: erosion then dilation, each step skipped
unless its iteration count is strictly positive (the code's `if n > 0`
guards). -/
def refineMask (p : Params) (m : Image Nat) : Image Nat :=
  let m1 := if p.erode_iterations > 0 then erodeN p.erode_iterations.toNat m else m
  if p.dilate_iterations > 0 then dilateN p.dilate_iterations.toNat m1 else m1

/-- `cv2.bitwise_not` on an 8-bit mask entry: 255 − m (the mask refiner only
ever produces values ≤ 255, where complement and subtraction agree). -/
def rawAlpha (m : Image Nat) : Image Nat :=
  m.map (List.map (fun x => 255 - x))

/-- Truncation of a float to `uint8` as `astype(np.uint8)` performs it:
toward zero, then wrapped modulo 256. -/
def trunc8 (q : ℚ) : Nat :=
  (((if 0 ≤ q then ⌊q⌋ else ⌈q⌉) % 256)).toNat

/-- `uint8` subtraction with numpy's modular wrap-around. -/
def u8sub (a b : Nat) : Nat :=
  (((a : Int) - (b : Int)) % 256).toNat

/-- `cv2.getGaussianKernel(n, 0)` coefficients.  For kernel sizes up to 7
with sigma ≤ 0 OpenCV uses fixed bit-exact coefficient tables (listed here
as exact dyadic rationals); for larger sizes it samples an exponential and
normalises to unit sum, which we model by the binomial kernel — symmetric,
positive, unit-sum, the only properties this development uses for those
sizes. -/
def gaussianKernel (n : Nat) : List ℚ :=
  if n = 1 then [1]
  else if n = 3 then [1/4, 1/2, 1/4]
  else if n = 5 then [1/16, 1/4, 3/8, 1/4, 1/16]
  else if n = 7 then [1/32, 7/64, 7/32, 9/32, 7/32, 7/64, 1/32]
  else (List.range n).map (fun i => ((n - 1).choose i : ℚ) / 2 ^ (n - 1))

/-- One step of `cv2.borderInterpolate(p, len, BORDER_REFLECT_101)`:
reflect about the edge pixels without repeating them. -/
def reflStep (n : Nat) (q : Int) : Int :=
  if q < 0 then -q else 2 * ((n : Int) - 1) - q

/-- `cv2.borderInterpolate` for `BORDER_REFLECT_101` (the `GaussianBlur`
default): reflect repeatedly until the index is in range; a length-1 axis
always maps to 0.  The recursion is bounded by explicit fuel, ample for
every index the convolution produces. -/
def reflAux : Nat → Nat → Int → Int
  | 0, _, q => q
  | fuel + 1, n, q =>
    if 0 ≤ q ∧ q < (n : Int) then q
    else reflAux fuel n (reflStep n q)

/-- Border reflection with enough fuel for any starting index. -/
def reflect101 (n : Nat) (q : Int) : Int :=
  if n = 1 then 0 else reflAux (2 * (q.natAbs + n) + 4) n q

/-- Sample of a float image at integer coordinates (in-range after border
reflection; defaults keep the function total). -/
def sampleQ (m : Image ℚ) (i j : Int) : ℚ :=
  if 0 ≤ i ∧ 0 ≤ j then (m.getD i.toNat []).getD j.toNat 0 else 0

/-- Weighted sum `Σ K[t] * f t` over the taps of a kernel. -/
def dot (K : List ℚ) (f : Nat → ℚ) : ℚ :=
  ((List.range K.length).map (fun t => K.getD t 0 * f t)).sum

/-- Horizontal pass of the separable Gaussian filter: each output pixel is
the kernel-weighted sum of its row, with `BORDER_REFLECT_101` columns. -/
def convRow (K : List ℚ) (m : Image ℚ) : Image ℚ :=
  mapGrid (fun i j =>
    dot K (fun t =>
      sampleQ m (i : Int)
        (reflect101 (m.getD i []).length ((j : Int) + (t : Int) - (K.length / 2 : Nat))))) m

/-- Vertical pass of the separable Gaussian filter, reflecting row
indices. -/
def convCol (K : List ℚ) (m : Image ℚ) : Image ℚ :=
  mapGrid (fun i j =>
    dot K (fun t =>
      sampleQ m (reflect101 m.length ((i : Int) + (t : Int) - (K.length / 2 : Nat))) (j : Int))) m

/-- `cv2.GaussianBlur(m, (n, n), 0)`: the separable kernel applied along
rows, then columns. -/
def gaussianBlur (n : Nat) (m : Image ℚ) : Image ℚ :=
  convCol (gaussianKernel n) (convRow (gaussianKernel n) m)

/-- The kernel size actually used by the feathering step: the feather
amount, bumped to the next integer when even (`feather_amount += 1`). -/
def oddFeather (p : Params) : Nat :=
  (if p.feather_amount % 2 = 0 then p.feather_amount + 1 else p.feather_amount).toNat

/-- Stage 3 tail, the Alpha Synthesizer's feathering: divide by 255 into
[0,1] floats, blur when `feather_amount > 0` (an even amount is bumped to
the next odd number first), then rescale by 255 and truncate back to
`uint8`. -/
def featherAlpha (p : Params) (alpha : Image Nat) : Image Nat :=
  let alphaF : Image ℚ := alpha.map (List.map (fun (a : Nat) => (a : ℚ) / 255))
  let alphaF :=
    if p.feather_amount > 0 then gaussianBlur (oddFeather p) alphaF else alphaF
  alphaF.map (List.map (fun q => trunc8 (q * 255)))

/-- Stage 4, the Spill Corrector on one pixel's green channel: with
`max_rb = max(r, b)` and `green_excess = max(g - max_rb, 0)` (computed in
`int16`, so without unsigned underflow), pixels with `g > max_rb` and
`green_excess > 20` get `trunc(green_excess * despill_strength)` subtracted
from green (`uint8` arithmetic); the whole block is skipped unless
`despill_strength > 0`. -/
def despillG (s : ℚ) (q : Pix3) : Nat :=
  if s > 0 then
    let maxrb : Nat := max q.r q.b
    let ex : Int := max ((q.g : Int) - (maxrb : Int)) 0
    if q.g > maxrb ∧ ex > 20 then u8sub q.g (trunc8 ((ex : ℚ) * s)) else q.g
  else q.g

/-- `cv2.merge((b, g, r))` after despill: red and blue pass through, green
is corrected. -/
def despillImage (s : ℚ) (img : Image Pix3) : Image Pix3 :=
  img.map (List.map (fun q => ⟨q.b, despillG s q, q.r⟩))

/-- Stage 5, the Compositor: `cv2.cvtColor(..., COLOR_BGR2BGRA)` followed by
overwriting the fourth channel with the synthesized alpha. -/
def composite (img : Image Pix3) (alpha : Image Nat) : Image Pix4 :=
  List.zipWith (fun rowI rowA =>
    List.zipWith (fun (q : Pix3) (a : Nat) => Pix4.mk q.b q.g q.r a) rowI rowA) img alpha

/-- The full pipeline on a decoded pixel buffer: classify, refine, invert,
feather, despill, composite.  (The code also computes a
`dilated_green_mask` for a contemplated edge-restricted despill, but never
uses it; it is omitted.) -/
def processImage (p : Params) (img : Image Pix3) : Image Pix4 :=
  composite (despillImage p.despill_strength img)
    (featherAlpha p (rawAlpha (refineMask p (classifyMask p img))))

/-- `remove_background_advanced`, with decoding abstracted: `none` models a
path `cv2.imread` cannot read, which raises `FileNotFoundError` before any
stage runs; any decoded buffer is processed unconditionally — the function
performs no parameter validation. -/
def remove_background_advanced (img : Option (Image Pix3)) (p : Params) :
    Except String (Image Pix4) :=
  match img with
  | none => .error "FileNotFoundError"
  | some i => .ok (processImage p i)

/-- The alpha channel the synthesizer hands to the compositor before any
feathering: the inverted refined mask. -/
def rawAlphaOf (p : Params) (img : Image Pix3) : Image Nat :=
  rawAlpha (refineMask p (classifyMask p img))

/-- The alpha channel of a composited buffer. -/
def alphaCh (m : Image Pix4) : Image Nat :=
  m.map (List.map Pix4.a)

/-- The green channel of a composited buffer. -/
def greenCh (m : Image Pix4) : Image Nat :=
  m.map (List.map Pix4.g)

/-- The red channel of a composited buffer. -/
def redCh (m : Image Pix4) : Image Nat :=
  m.map (List.map Pix4.r)

/-- The blue channel of a composited buffer. -/
def blueCh (m : Image Pix4) : Image Nat :=
  m.map (List.map Pix4.b)

/-! ### Concrete inputs used by witnesses and counterexamples -/

/-- A single pure-white pixel. -/
def whiteImg : Image Pix3 := [[⟨255, 255, 255⟩]]

/-- A single pure-green pixel (BGR `(0, 255, 0)`). -/
def greenImg : Image Pix3 := [[⟨0, 255, 0⟩]]

/-- The 2×2 scenario image: top-left pure green, the rest pure white. -/
def sceneImg : Image Pix3 :=
  [[⟨0, 255, 0⟩, ⟨255, 255, 255⟩], [⟨255, 255, 255⟩, ⟨255, 255, 255⟩]]

/-- Parameters of the 2×2 scenario: defaults with `feather=0`, `erode=0`,
`dilate=0`. -/
def sceneParams : Params :=
  { feather_amount := 0, erode_iterations := 0, dilate_iterations := 0 }

/-- Deliberately out-of-range parameters: despill strength 2.0 (above 1.0)
and negative feather and iteration counts. -/
def badParams : Params :=
  { despill_strength := 2, feather_amount := -3, erode_iterations := -1,
    dilate_iterations := -1 }

/-- A 3×3 buffer of pure-green pixels, used to exercise feathering away
from the border. -/
def green3 : Image Pix3 :=
  [[⟨0, 255, 0⟩, ⟨0, 255, 0⟩, ⟨0, 255, 0⟩],
   [⟨0, 255, 0⟩, ⟨0, 255, 0⟩, ⟨0, 255, 0⟩],
   [⟨0, 255, 0⟩, ⟨0, 255, 0⟩, ⟨0, 255, 0⟩]]

/-- Defaults with a 3×3 feather kernel and no morphology. -/
def featherParams : Params :=
  { feather_amount := 3, erode_iterations := 0, dilate_iterations := 0 }

/-! ### General list helper lemmas -/

lemma getD_pred {α : Type} {P : α → Prop} {l : List α} {d : α} {i : Nat}
    (h : ∀ x ∈ l, P x) (hd : P d) : P (l.getD i d) := by
  rw [List.getD_eq_getElem?_getD]
  cases h' : l[i]? with
  | none => simpa using hd
  | some a => simpa using h a (List.getElem?_mem h')

lemma getD_range_map {α : Type} {g : Nat → α} {n i : Nat} {d : α} (h : i < n) :
    ((List.range n).map g).getD i d = g i := by
  rw [List.getD_eq_getElem?_getD, List.getElem?_map, List.getElem?_range h]
  rfl

lemma getD_map_of_lt {α β : Type} {f : α → β} {l : List α} {i : Nat} {d : β} (d0 : α)
    (h : i < l.length) : (l.map f).getD i d = f (l.getD i d0) := by
  rw [List.getD_eq_getElem?_getD, List.getElem?_map, List.getD_eq_getElem?_getD,
    List.getElem?_eq_getElem h]
  rfl

lemma range_map_getD {α : Type} (f : List α → Nat) (l : List (List α)) :
    ∀ g : Nat → Nat, (∀ i < l.length, f (l.getD i []) = g i) →
    (List.range l.length).map g = l.map f := by
  induction l with
  | nil => intro g h; simp
  | cons a l ih =>
    intro g h
    simp only [List.length_cons]
    rw [List.range_succ_eq_map, List.map_cons, List.map_cons, List.map_map]
    have h0 := h 0 (Nat.succ_pos _)
    simp only [List.getD_cons_zero] at h0
    rw [← h0]
    congr 1
    have htail := ih (fun i => g (i + 1))
      (fun i hi => by simpa using h (i + 1) (Nat.succ_lt_succ hi))
    simpa [Function.comp] using htail

lemma zipWith_snd {α β : Type} {l1 : List α} {l2 : List β}
    (h : l1.length = l2.length) : List.zipWith (fun _ y => y) l1 l2 = l2 := by
  induction l1 generalizing l2 with
  | nil => cases l2 with
    | nil => rfl
    | cons b t => simp at h
  | cons a t ih => cases l2 with
    | nil => simp at h
    | cons b t2 =>
      simp only [List.zipWith_cons_cons, List.cons.injEq]
      exact ⟨trivial, ih (by simpa using h)⟩

lemma zipWith_fst {α β γ : Type} (f : α → γ) {l1 : List α} {l2 : List β}
    (h : l1.length = l2.length) : List.zipWith (fun x _ => f x) l1 l2 = l1.map f := by
  induction l1 generalizing l2 with
  | nil => rfl
  | cons a t ih => cases l2 with
    | nil => simp at h
    | cons b t2 =>
      simp only [List.zipWith_cons_cons, List.map_cons, List.cons.injEq]
      exact ⟨trivial, ih (by simpa using h)⟩

lemma list_sum_range (f : Nat → ℚ) (n : Nat) :
    ((List.range n).map f).sum = ∑ i ∈ Finset.range n, f i := by
  induction n with
  | zero => simp
  | succ n ih =>
    rw [List.range_succ, List.map_append, List.sum_append, Finset.sum_range_succ, ih]
    simp

/-! ### Shape lemmas -/

/-- `m` is an `h × w` rectangular buffer. -/
def Rect {α : Type} (m : Image α) (h w : Nat) : Prop :=
  m.length = h ∧ ∀ row ∈ m, row.length = w

lemma dims_map {α β : Type} (f : α → β) (m : Image α) :
    dims (m.map (List.map f)) = dims m := by
  simp [dims, List.map_map, Function.comp]

lemma dims_mapGrid {α β : Type} (f : Nat → Nat → β) (m : Image α) :
    dims (mapGrid f m) = dims m := by
  unfold dims mapGrid
  rw [List.map_map]
  exact range_map_getD List.length m _ (fun i _ => by simp)

lemma dims_erode1 (m : Image Nat) : dims (erode1 m) = dims m := dims_mapGrid _ m

lemma dims_dilate1 (m : Image Nat) : dims (dilate1 m) = dims m := dims_mapGrid _ m

lemma dims_erodeN (n : Nat) (m : Image Nat) : dims (erodeN n m) = dims m := by
  induction n generalizing m with
  | zero => rfl
  | succ n ih => rw [erodeN, ih, dims_erode1]

lemma dims_dilateN (n : Nat) (m : Image Nat) : dims (dilateN n m) = dims m := by
  induction n generalizing m with
  | zero => rfl
  | succ n ih => rw [dilateN, ih, dims_dilate1]

lemma dims_refineMask (p : Params) (m : Image Nat) : dims (refineMask p m) = dims m := by
  unfold refineMask
  rcases Decidable.em (p.erode_iterations > 0) with h1 | h1 <;>
    rcases Decidable.em (p.dilate_iterations > 0) with h2 | h2 <;>
    simp [h1, h2, dims_erodeN, dims_dilateN]

lemma dims_classifyMask (p : Params) (img : Image Pix3) :
    dims (classifyMask p img) = dims img := dims_map _ img

lemma dims_rawAlpha (m : Image Nat) : dims (rawAlpha m) = dims m := dims_map _ m

lemma dims_convRow (K : List ℚ) (m : Image ℚ) : dims (convRow K m) = dims m :=
  dims_mapGrid _ m

lemma dims_convCol (K : List ℚ) (m : Image ℚ) : dims (convCol K m) = dims m :=
  dims_mapGrid _ m

lemma dims_gaussianBlur (n : Nat) (m : Image ℚ) : dims (gaussianBlur n m) = dims m := by
  unfold gaussianBlur
  rw [dims_convCol, dims_convRow]

lemma dims_featherAlpha (p : Params) (alpha : Image Nat) :
    dims (featherAlpha p alpha) = dims alpha := by
  unfold featherAlpha
  rcases Decidable.em (p.feather_amount > 0) with h | h <;>
    simp [h, dims_map, dims_gaussianBlur]

lemma dims_despillImage (s : ℚ) (img : Image Pix3) :
    dims (despillImage s img) = dims img := dims_map _ img

lemma dims_rawAlphaOf (p : Params) (img : Image Pix3) :
    dims (rawAlphaOf p img) = dims img := by
  unfold rawAlphaOf
  rw [dims_rawAlpha, dims_refineMask, dims_classifyMask]

lemma length_of_dims_eq {α β : Type} {m : Image α} {m' : Image β}
    (h : dims m = dims m') : m.length = m'.length := by
  have := congrArg List.length h
  simpa [dims] using this

/-! ### Access and kernel lemmas -/

lemma px_mapGrid {α β : Type} (f : Nat → Nat → β) (m : Image α) (d : β) {i j : Nat}
    (hi : i < m.length) (hj : j < (m.getD i []).length) :
    px (mapGrid f m) d i j = f i j := by
  unfold px mapGrid
  rw [getD_range_map hi, getD_range_map hj]

lemma px_map_map {α β : Type} (f : α → β) (m : Image α) (d : β) (d0 : α) {i j : Nat}
    (hi : i < m.length) (hj : j < (m.getD i []).length) :
    px (m.map (List.map f)) d i j = f (px m d0 i j) := by
  unfold px
  rw [getD_map_of_lt [] hi, getD_map_of_lt d0 hj]

lemma map_getD_range {α : Type} (l : List α) (d : α) :
    (List.range l.length).map (fun t => l.getD t d) = l := by
  induction l with
  | nil => simp
  | cons a t ih =>
    simp only [List.length_cons]
    rw [List.range_succ_eq_map, List.map_cons, List.map_map]
    simp only [List.getD_cons_zero, List.cons.injEq]
    constructor
    · trivial
    · have : ((fun t_1 => (a :: t).getD t_1 d) ∘ Nat.succ) = fun i => t.getD i d := by
        funext i
        simp [Function.comp]
      rw [this, ih]

lemma gaussianKernel_length (n : Nat) : (gaussianKernel n).length = n := by
  unfold gaussianKernel
  split
  · simp_all
  · split
    · simp_all
    · split
      · simp_all
      · split
        · simp_all
        · simp

lemma gaussianKernel_sum (n : Nat) (hn : 1 ≤ n) : (gaussianKernel n).sum = 1 := by
  by_cases h1 : n = 1
  · simp [gaussianKernel, h1]
  by_cases h3 : n = 3
  · subst h3; norm_num [gaussianKernel]
  by_cases h5 : n = 5
  · subst h5; norm_num [gaussianKernel]
  by_cases h7 : n = 7
  · subst h7; norm_num [gaussianKernel]
  simp only [gaussianKernel, h1, h3, h5, h7, if_false]
  have hfun : (fun i => ((n - 1).choose i : ℚ) / 2 ^ (n - 1))
      = fun i => ((n - 1).choose i : ℚ) * ((2 : ℚ) ^ (n - 1))⁻¹ := by
    funext i
    rw [div_eq_mul_inv]
  rw [hfun, List.sum_map_mul_right, list_sum_range]
  obtain ⟨m, rfl⟩ : ∃ m, n = m + 1 := ⟨n - 1, (Nat.succ_pred_eq_of_pos hn).symm⟩
  simp only [Nat.add_sub_cancel]
  rw [← Nat.cast_sum, Nat.sum_range_choose]
  push_cast
  rw [mul_inv_cancel₀ (by positivity)]

lemma reflAux_id {fuel n : Nat} {q : Int} (hf : 0 < fuel) (h0 : 0 ≤ q)
    (h1 : q < (n : Int)) : reflAux fuel n q = q := by
  cases fuel with
  | zero => omega
  | succ fuel => simp [reflAux, h0, h1]

lemma reflect101_id {n : Nat} {q : Int} (h0 : 0 ≤ q) (h1 : q < (n : Int)) :
    reflect101 n q = q := by
  unfold reflect101
  by_cases hn : n = 1
  · subst hn
    simp only [if_true]
    omega
  · rw [if_neg hn]
    exact reflAux_id (by omega) h0 h1

lemma dot_const (K : List ℚ) (f : Nat → ℚ) (c : ℚ)
    (h : ∀ t < K.length, f t = c) : dot K f = K.sum * c := by
  unfold dot
  have hcongr : (List.range K.length).map (fun t => K.getD t 0 * f t)
      = (List.range K.length).map (fun t => K.getD t 0 * c) := by
    apply List.map_congr_left
    intro t ht
    rw [h t (List.mem_range.mp ht)]
  rw [hcongr, List.sum_map_mul_right (List.range K.length) (fun t => K.getD t 0) c,
    map_getD_range K 0]

/-! ### 8-bit truncation lemmas -/

lemma trunc8_floor {q : ℚ} (h0 : 0 ≤ q) (h255 : q ≤ 255) :
    trunc8 q = (⌊q⌋).toNat := by
  unfold trunc8
  rw [if_pos h0, Int.emod_eq_of_lt (Int.floor_nonneg.mpr h0)]
  have : ⌊q⌋ ≤ ⌊(255 : ℚ)⌋ := Int.floor_le_floor h255
  simp only [show ⌊(255 : ℚ)⌋ = 255 from by norm_num] at this
  omega

lemma trunc8_natCast {a : Nat} (ha : a ≤ 255) : trunc8 (a : ℚ) = a := by
  rw [trunc8_floor (by positivity) (by exact_mod_cast ha), Int.floor_natCast]
  simp

lemma trunc8_roundtrip {a : Nat} (ha : a ≤ 255) : trunc8 ((a : ℚ) / 255 * 255) = a := by
  rw [div_mul_cancel₀ _ (by norm_num : (255 : ℚ) ≠ 0)]
  exact trunc8_natCast ha

lemma u8sub_of_le {a b : Nat} (hb : b ≤ a) (ha : a ≤ 255) : u8sub a b = a - b := by
  unfold u8sub
  omega

/-! ### Uniform-buffer lemmas (used for the all-background round trip) -/

/-- Every entry of the buffer equals `c`. -/
def AllEq {α : Type} (m : Image α) (c : α) : Prop :=
  ∀ row ∈ m, ∀ x ∈ row, x = c

lemma px_allEq {α : Type} {m : Image α} {c : α} (h : AllEq m c) (i j : Nat) :
    px m c i j = c := by
  unfold px
  have hrow : ∀ row ∈ m, row.getD j c = c := fun row hr =>
    getD_pred (fun x hx => h row hr x hx) rfl
  exact getD_pred hrow (by simp)

lemma allEq_map_map {α β : Type} {m : Image α} (f : α → β) {c : β}
    (h : ∀ row ∈ m, ∀ x ∈ row, f x = c) : AllEq (m.map (List.map f)) c := by
  intro row hrow x hx
  obtain ⟨row0, hr0, rfl⟩ := List.mem_map.mp hrow
  obtain ⟨x0, hx0, rfl⟩ := List.mem_map.mp hx
  exact h row0 hr0 x0 hx0

lemma allEq_mapGrid {α β : Type} {m : Image α} (f : Nat → Nat → β) {c : β}
    (h : ∀ i j, i < m.length → j < (m.getD i []).length → f i j = c) :
    AllEq (mapGrid f m) c := by
  intro row hrow x hx
  obtain ⟨i, hi, rfl⟩ := List.mem_map.mp hrow
  obtain ⟨j, hj, rfl⟩ := List.mem_map.mp hx
  exact h i j (List.mem_range.mp hi) (List.mem_range.mp hj)

lemma getD_mem_of_lt {α : Type} {l : List α} {i : Nat} (d : α) (h : i < l.length) :
    l.getD i d ∈ l := by
  rw [List.getD_eq_getElem?_getD, List.getElem?_eq_getElem h]
  exact List.getElem_mem h

lemma at2_allEq255 {m : Image Nat} (h : AllEq m 255) (i j : Int) :
    at2 m 255 i j = 255 := by
  unfold at2
  split
  · have hrow : ∀ row ∈ m, row.getD j.toNat 255 = 255 := fun row hr =>
      getD_pred (fun x hx => h row hr x hx) rfl
    exact getD_pred hrow (by simp)
  · rfl

lemma foldr_min_all {l : List Nat} (h : ∀ x ∈ l, x = 255) :
    l.foldr min 255 = 255 := by
  induction l with
  | nil => rfl
  | cons a t ih =>
    simp only [List.foldr_cons]
    rw [h a (List.mem_cons_self _ _), ih (fun x hx => h x (List.mem_cons_of_mem _ hx))]
    simp

lemma foldr_max_le {l : List Nat} {c : Nat} (h : ∀ x ∈ l, x ≤ c) :
    l.foldr max 0 ≤ c := by
  induction l with
  | nil => simp
  | cons a t ih =>
    simp only [List.foldr_cons, max_le_iff]
    exact ⟨h a (List.mem_cons_self _ _), ih (fun x hx => h x (List.mem_cons_of_mem _ hx))⟩

lemma le_foldr_max {l : List Nat} {a : Nat} (h : a ∈ l) : a ≤ l.foldr max 0 := by
  induction l with
  | nil => simp at h
  | cons b t ih =>
    simp only [List.foldr_cons, le_max_iff]
    rcases List.mem_cons.mp h with rfl | hm
    · exact Or.inl le_rfl
    · exact Or.inr (ih hm)

lemma erode1_allEq255 {m : Image Nat} (h : AllEq m 255) : AllEq (erode1 m) 255 := by
  unfold erode1
  refine allEq_mapGrid _ (fun i j _ _ => ?_)
  refine foldr_min_all (fun x hx => ?_)
  unfold nbhd at hx
  simp only [List.mem_flatMap, List.mem_map] at hx
  obtain ⟨di, _, dj, _, rfl⟩ := hx
  exact at2_allEq255 h _ _

lemma dilate1_allEq255 {m : Image Nat} (h : AllEq m 255) : AllEq (dilate1 m) 255 := by
  unfold dilate1
  refine allEq_mapGrid _ (fun i j hi hj => ?_)
  have hub : (nbhd m 0 i j).foldr max 0 ≤ 255 := by
    refine foldr_max_le (fun x hx => ?_)
    unfold nbhd at hx
    simp only [List.mem_flatMap, List.mem_map] at hx
    obtain ⟨di, _, dj, _, rfl⟩ := hx
    unfold at2
    split
    · have hrow : ∀ row ∈ m, ∀ x ∈ row, x ≤ 255 := fun row hr x hx =>
        le_of_eq (h row hr x hx)
      have hle : ∀ row ∈ m, row.getD ((j : Int) + dj).toNat 0 ≤ 255 := fun row hr =>
        getD_pred (hrow row hr) (by omega)
      exact getD_pred hle (by simp)
    · omega
  have hcenter : at2 m 0 (i : Int) (j : Int) ∈ nbhd m 0 i j := by
    unfold nbhd
    simp only [List.mem_flatMap, List.mem_map]
    exact ⟨0, by simp, 0, by simp, by simp⟩
  have hcv : at2 m 0 (i : Int) (j : Int) = 255 := by
    unfold at2
    rw [if_pos (by omega)]
    simp only [Int.toNat_natCast]
    have hrow := getD_mem_of_lt ([] : List Nat) hi
    have hx := getD_mem_of_lt 0 hj
    exact h _ hrow _ hx
  have := le_foldr_max hcenter
  omega

lemma erodeN_allEq255 {m : Image Nat} (n : Nat) (h : AllEq m 255) :
    AllEq (erodeN n m) 255 := by
  induction n generalizing m with
  | zero => exact h
  | succ n ih => exact ih (erode1_allEq255 h)

lemma dilateN_allEq255 {m : Image Nat} (n : Nat) (h : AllEq m 255) :
    AllEq (dilateN n m) 255 := by
  induction n generalizing m with
  | zero => exact h
  | succ n ih => exact ih (dilate1_allEq255 h)

lemma refineMask_allEq255 (p : Params) {m : Image Nat} (h : AllEq m 255) :
    AllEq (refineMask p m) 255 := by
  unfold refineMask
  rcases Decidable.em (p.erode_iterations > 0) with h1 | h1 <;>
    rcases Decidable.em (p.dilate_iterations > 0) with h2 | h2 <;>
    simp only [h1, h2, if_true, if_false, ite_true, ite_false] <;>
    first
      | exact dilateN_allEq255 _ (erodeN_allEq255 _ h)
      | exact erodeN_allEq255 _ h
      | exact dilateN_allEq255 _ h
      | exact h

lemma rawAlpha_allEq0 {m : Image Nat} (h : AllEq m 255) : AllEq (rawAlpha m) 0 := by
  unfold rawAlpha
  exact allEq_map_map _ (fun row hr x hx => by rw [h row hr x hx])

lemma sampleQ_allEq0 {m : Image ℚ} (h : AllEq m 0) (i j : Int) : sampleQ m i j = 0 := by
  unfold sampleQ
  split
  · have hrow : ∀ row ∈ m, row.getD j.toNat 0 = 0 := fun row hr =>
      getD_pred (fun x hx => h row hr x hx) rfl
    exact getD_pred hrow (by simp)
  · rfl

lemma convRow_allEq0 {K : List ℚ} {m : Image ℚ} (h : AllEq m 0) :
    AllEq (convRow K m) 0 := by
  unfold convRow
  refine allEq_mapGrid _ (fun i j _ _ => ?_)
  rw [dot_const _ _ 0 (fun t _ => sampleQ_allEq0 h _ _), mul_zero]

lemma convCol_allEq0 {K : List ℚ} {m : Image ℚ} (h : AllEq m 0) :
    AllEq (convCol K m) 0 := by
  unfold convCol
  refine allEq_mapGrid _ (fun i j _ _ => ?_)
  rw [dot_const _ _ 0 (fun t _ => sampleQ_allEq0 h _ _), mul_zero]

lemma gaussianBlur_allEq0 {n : Nat} {m : Image ℚ} (h : AllEq m 0) :
    AllEq (gaussianBlur n m) 0 := by
  unfold gaussianBlur
  exact convCol_allEq0 (convRow_allEq0 h)

lemma featherAlpha_allEq0 (p : Params) {alpha : Image Nat} (h : AllEq alpha 0) :
    AllEq (featherAlpha p alpha) 0 := by
  unfold featherAlpha
  have hF : AllEq (alpha.map (List.map (fun (a : Nat) => (a : ℚ) / 255))) 0 :=
    allEq_map_map _ (fun row hr x hx => by rw [h row hr x hx]; norm_num)
  rcases Decidable.em (p.feather_amount > 0) with hp | hp <;>
    simp only [hp, if_true, if_false, ite_true, ite_false]
  · refine allEq_map_map _ (fun row hr x hx => ?_)
    rw [gaussianBlur_allEq0 hF row hr x hx]
    simp [trunc8]
  · refine allEq_map_map _ (fun row hr x hx => ?_)
    rw [hF row hr x hx]
    simp [trunc8]

/-! ### Despill arithmetic -/

/-- The despill-eligible test, phrased with `Nat` subtraction (which is the
claim's `max(0, g - max(r, b))` clamp). -/
def Eligible (q : Pix3) : Prop :=
  max q.r q.b < q.g ∧ 20 < q.g - max q.r q.b

instance (q : Pix3) : Decidable (Eligible q) := by
  unfold Eligible
  infer_instance

lemma despillG_of_not_eligible (s : ℚ) (q : Pix3) (h : ¬ Eligible q) :
    despillG s q = q.g := by
  unfold despillG
  split
  · rw [if_neg]
    intro ⟨h1, h2⟩
    exact h ⟨h1, by omega⟩
  · rfl

lemma despillG_zero (q : Pix3) : despillG 0 q = q.g := by
  simp [despillG]

lemma despillG_of_eligible (s : ℚ) (q : Pix3) (hg : q.g ≤ 255)
    (h0 : 0 ≤ s) (h1 : s ≤ 1) (he : Eligible q) :
    despillG s q = q.g - (⌊((q.g - max q.r q.b : Nat) : ℚ) * s⌋).toNat := by
  obtain ⟨hlt, hex⟩ := he
  rcases eq_or_lt_of_le h0 with hs0 | hs0
  · rw [← hs0, despillG_zero]
    simp
  · unfold despillG
    rw [if_pos hs0]
    have hexval : max ((q.g : Int) - (max q.r q.b : Nat)) 0
        = ((q.g - max q.r q.b : Nat) : Int) := by omega
    rw [if_pos ⟨hlt, by omega⟩]
    set E : Nat := q.g - max q.r q.b with hE
    have hE255 : E ≤ 255 := by omega
    have hcast : ((max ((q.g : Int) - (max q.r q.b : Nat)) 0 : Int) : ℚ) = (E : ℚ) := by
      rw [hexval]
      push_cast
      ring
    rw [hcast]
    have hprod0 : 0 ≤ (E : ℚ) * s := mul_nonneg (by positivity) h0
    have hprodE : (E : ℚ) * s ≤ (E : ℚ) :=
      mul_le_of_le_one_right (by positivity) h1
    have hprod255 : (E : ℚ) * s ≤ 255 :=
      le_trans hprodE (by exact_mod_cast hE255)
    rw [trunc8_floor hprod0 hprod255]
    have hfloorE : ⌊(E : ℚ) * s⌋ ≤ (E : Int) := by
      have := Int.floor_le_floor hprodE
      simpa using this
    have hfloor0 : 0 ≤ ⌊(E : ℚ) * s⌋ := Int.floor_nonneg.mpr hprod0
    exact u8sub_of_le (by omega) hg

/-! ### Compositor channel extraction -/

lemma dims_cons {α : Type} (row : List α) (m : Image α) :
    dims (row :: m) = row.length :: dims m := rfl

lemma composite_map_a (D : Image Pix3) (A : Image Nat) (h : dims D = dims A) :
    (composite D A).map (List.map Pix4.a) = A := by
  induction D generalizing A with
  | nil =>
    cases A with
    | nil => rfl
    | cons a t => simp [dims] at h
  | cons d Dt ih =>
    cases A with
    | nil => simp [dims] at h
    | cons a At =>
      rw [dims_cons, dims_cons, List.cons.injEq] at h
      unfold composite
      simp only [List.zipWith_cons_cons, List.map_cons, List.cons.injEq]
      constructor
      · rw [List.map_zipWith]
        exact zipWith_snd h.1
      · exact ih At h.2

lemma composite_map_color {γ : Type} (f : Pix4 → γ) (f3 : Pix3 → γ)
    (hf : ∀ q a, f (Pix4.mk q.b q.g q.r a) = f3 q)
    (D : Image Pix3) (A : Image Nat) (h : dims D = dims A) :
    (composite D A).map (List.map f) = D.map (List.map f3) := by
  induction D generalizing A with
  | nil => rfl
  | cons d Dt ih =>
    cases A with
    | nil => simp [dims] at h
    | cons a At =>
      rw [dims_cons, dims_cons, List.cons.injEq] at h
      unfold composite
      simp only [List.zipWith_cons_cons, List.map_cons, List.cons.injEq]
      constructor
      · rw [List.map_zipWith]
        have hfun : (fun (q : Pix3) (x : Nat) => f (Pix4.mk q.b q.g q.r x))
            = fun (q : Pix3) (_ : Nat) => f3 q := by
          funext q x
          exact hf q x
        rw [hfun]
        exact zipWith_fst f3 h.1
      · exact ih At h.2

lemma dims_composite (D : Image Pix3) (A : Image Nat) (h : dims D = dims A) :
    dims (composite D A) = dims D := by
  induction D generalizing A with
  | nil => rfl
  | cons d Dt ih =>
    cases A with
    | nil => simp [dims] at h
    | cons a At =>
      rw [dims_cons, dims_cons, List.cons.injEq] at h
      unfold composite
      simp only [List.zipWith_cons_cons]
      rw [dims_cons, dims_cons]
      rw [List.cons.injEq]
      constructor
      · rw [List.length_zipWith, h.1, min_self]
      · exact ih At h.2

lemma dims_feather_raw (p : Params) (img : Image Pix3) :
    dims (despillImage p.despill_strength img)
      = dims (featherAlpha p (rawAlphaOf p img)) := by
  rw [dims_despillImage, dims_featherAlpha, dims_rawAlphaOf]

lemma dims_processImage (p : Params) (img : Image Pix3) :
    dims (processImage p img) = dims img := by
  unfold processImage
  rw [show rawAlpha (refineMask p (classifyMask p img)) = rawAlphaOf p img from rfl,
    dims_composite _ _ (dims_feather_raw p img), dims_despillImage]

lemma alphaCh_processImage (p : Params) (img : Image Pix3) :
    alphaCh (processImage p img) = featherAlpha p (rawAlphaOf p img) := by
  unfold alphaCh processImage
  rw [show rawAlpha (refineMask p (classifyMask p img)) = rawAlphaOf p img from rfl,
    composite_map_a _ _ (dims_feather_raw p img)]

lemma redCh_processImage (p : Params) (img : Image Pix3) :
    redCh (processImage p img) = img.map (List.map Pix3.r) := by
  unfold redCh processImage
  rw [show rawAlpha (refineMask p (classifyMask p img)) = rawAlphaOf p img from rfl,
    composite_map_color Pix4.r Pix3.r (fun q a => rfl) _ _ (dims_feather_raw p img)]
  simp [despillImage, List.map_map, Function.comp]

lemma blueCh_processImage (p : Params) (img : Image Pix3) :
    blueCh (processImage p img) = img.map (List.map Pix3.b) := by
  unfold blueCh processImage
  rw [show rawAlpha (refineMask p (classifyMask p img)) = rawAlphaOf p img from rfl,
    composite_map_color Pix4.b Pix3.b (fun q a => rfl) _ _ (dims_feather_raw p img)]
  simp [despillImage, List.map_map, Function.comp]

lemma greenCh_processImage (p : Params) (img : Image Pix3) :
    greenCh (processImage p img)
      = img.map (List.map (fun q => despillG p.despill_strength q)) := by
  unfold greenCh processImage
  rw [show rawAlpha (refineMask p (classifyMask p img)) = rawAlphaOf p img from rfl,
    composite_map_color Pix4.g Pix3.g (fun q a => rfl) _ _ (dims_feather_raw p img)]
  simp [despillImage, List.map_map, Function.comp]

/-! ### Feathering lemmas -/

lemma rawAlpha_le255 (m : Image Nat) : ∀ row ∈ rawAlpha m, ∀ x ∈ row, x ≤ 255 := by
  intro row hrow x hx
  unfold rawAlpha at hrow
  obtain ⟨row0, _, rfl⟩ := List.mem_map.mp hrow
  obtain ⟨x0, _, rfl⟩ := List.mem_map.mp hx
  omega

lemma featherAlpha_of_feather_zero (p : Params) (alpha : Image Nat)
    (hf : p.feather_amount = 0)
    (hb : ∀ row ∈ alpha, ∀ x ∈ row, x ≤ 255) : featherAlpha p alpha = alpha := by
  unfold featherAlpha
  rw [hf]
  simp only [show ¬((0 : Int) > 0) from by omega, if_false, ite_false, List.map_map]
  have hrow : ∀ row ∈ alpha,
      ((List.map fun q => trunc8 (q * 255)) ∘ List.map fun (a : Nat) => (a : ℚ) / 255) row
        = id row := by
    intro row hr
    simp only [Function.comp_apply, List.map_map, id]
    have : ∀ x ∈ row,
        ((fun q => trunc8 (q * 255)) ∘ fun (a : Nat) => (a : ℚ) / 255) x = id x :=
      fun x hx => trunc8_roundtrip (hb row hr x hx)
    rw [List.map_congr_left this, List.map_id]
  rw [List.map_congr_left hrow, List.map_id]

/-! ### Uniform-footprint blur lemmas -/

lemma rect_of_dims_eq {α β : Type} {m : Image α} {m' : Image β} {h w : Nat}
    (hd : dims m' = dims m) (hR : Rect m h w) : Rect m' h w := by
  constructor
  · rw [← hR.1]
    exact length_of_dims_eq hd
  · intro row hrow
    have : row.length ∈ dims m' := List.mem_map_of_mem _ hrow
    rw [hd] at this
    obtain ⟨row0, hr0, hlen⟩ := List.mem_map.mp this
    rw [← hlen]
    exact hR.2 row0 hr0

lemma rect_row_length {α : Type} {m : Image α} {h w : Nat} (hR : Rect m h w)
    {i : Nat} (hi : i < h) : (m.getD i []).length = w := by
  have hiL : i < m.length := by rw [hR.1]; exact hi
  exact hR.2 _ (getD_mem_of_lt [] hiL)

lemma convRow_uniform (K : List ℚ) (hK : K.sum = 1) (F : Image ℚ) {h w : Nat}
    (hR : Rect F h w) {i j : Nat} (hi : i < h)
    (hj1 : K.length / 2 ≤ j) (hj2 : j + K.length / 2 < w) (c : ℚ)
    (hu : ∀ j', j - K.length / 2 ≤ j' → j' ≤ j + K.length / 2 → px F 0 i j' = c) :
    px (convRow K F) 0 i j = c := by
  have hiL : i < F.length := by rw [hR.1]; exact hi
  have hrowlen : (F.getD i []).length = w := rect_row_length hR hi
  have hjL : j < (F.getD i []).length := by omega
  unfold convRow
  rw [px_mapGrid _ _ _ hiL hjL]
  rw [dot_const _ _ c ?taps, hK, one_mul]
  intro t ht
  set r := K.length / 2 with hr
  have hq0 : (0 : Int) ≤ (j : Int) + (t : Int) - (r : Nat) := by omega
  have hqw : (j : Int) + (t : Int) - (r : Nat) < ((F.getD i []).length : Int) := by
    rw [hrowlen]
    omega
  rw [reflect101_id hq0 hqw]
  unfold sampleQ
  rw [if_pos ⟨by omega, hq0⟩]
  have htn : ((i : Int)).toNat = i := by omega
  rw [htn]
  have := hu (((j : Int) + (t : Int) - (r : Nat)).toNat) (by omega) (by omega)
  unfold px at this
  exact this

lemma convCol_uniform (K : List ℚ) (hK : K.sum = 1) (F : Image ℚ) {h w : Nat}
    (hR : Rect F h w) {i j : Nat}
    (hi1 : K.length / 2 ≤ i) (hi2 : i + K.length / 2 < h) (hj : j < w) (c : ℚ)
    (hu : ∀ i', i - K.length / 2 ≤ i' → i' ≤ i + K.length / 2 → px F 0 i' j = c) :
    px (convCol K F) 0 i j = c := by
  have hiL : i < F.length := by rw [hR.1]; omega
  have hjL : j < (F.getD i []).length := by rw [rect_row_length hR (by omega)]; omega
  unfold convCol
  rw [px_mapGrid _ _ _ hiL hjL]
  rw [dot_const _ _ c ?taps, hK, one_mul]
  intro t ht
  set r := K.length / 2 with hr
  have hq0 : (0 : Int) ≤ (i : Int) + (t : Int) - (r : Nat) := by omega
  have hqh : (i : Int) + (t : Int) - (r : Nat) < (F.length : Int) := by
    rw [hR.1]
    omega
  rw [reflect101_id hq0 hqh]
  unfold sampleQ
  rw [if_pos ⟨hq0, by omega⟩]
  have htn : ((j : Int)).toNat = j := by omega
  rw [htn]
  have := hu (((i : Int) + (t : Int) - (r : Nat)).toNat) (by omega) (by omega)
  unfold px at this
  exact this

lemma gaussianBlur_uniform (n : Nat) (hn : 1 ≤ n) (F : Image ℚ) {h w : Nat}
    (hR : Rect F h w) {i j : Nat}
    (hi1 : n / 2 ≤ i) (hi2 : i + n / 2 < h) (hj1 : n / 2 ≤ j) (hj2 : j + n / 2 < w)
    (c : ℚ)
    (hu : ∀ i' j', i - n / 2 ≤ i' → i' ≤ i + n / 2 → j - n / 2 ≤ j' →
      j' ≤ j + n / 2 → px F 0 i' j' = c) :
    px (gaussianBlur n F) 0 i j = c := by
  unfold gaussianBlur
  set K := gaussianKernel n with hKdef
  have hKlen : K.length = n := gaussianKernel_length n
  have hKsum : K.sum = 1 := gaussianKernel_sum n hn
  have hRrow : Rect (convRow K F) h w :=
    rect_of_dims_eq (dims_convRow K F) hR
  refine convCol_uniform K hKsum _ hRrow (by omega) (by omega) (by omega) c ?_
  intro i' hlo hhi
  refine convRow_uniform K hKsum F hR (by omega) (by omega) (by omega) c ?_
  intro j' hlo' hhi'
  exact hu i' j' (by omega) (by omega) (by omega) (by omega)

lemma oddFeather_pos {p : Params} (hf : 0 < p.feather_amount) : 1 ≤ oddFeather p := by
  unfold oddFeather
  split <;> omega

lemma featherAlpha_of_pos (p : Params) (alpha : Image Nat)
    (hf : 0 < p.feather_amount) :
    featherAlpha p alpha
      = (gaussianBlur (oddFeather p)
          (alpha.map (List.map (fun (a : Nat) => (a : ℚ) / 255)))).map
          (List.map (fun q => trunc8 (q * 255))) := by
  unfold featherAlpha
  simp only [gt_iff_lt, hf, if_true]

lemma px_rawAlpha_le255 (m : Image Nat) (i j : Nat) : px (rawAlpha m) 0 i j ≤ 255 := by
  unfold px
  have h1 : ∀ row ∈ rawAlpha m, row.getD j 0 ≤ 255 := fun row hr =>
    getD_pred (rawAlpha_le255 m row hr) (by omega)
  exact getD_pred h1 (by simp)

lemma featherAlpha_even_step (p : Params) (N : Int) (h0 : 0 < N) (h2 : N % 2 = 0)
    (alpha : Image Nat) :
    featherAlpha { p with feather_amount := N } alpha
      = featherAlpha { p with feather_amount := N + 1 } alpha := by
  unfold featherAlpha oddFeather
  simp only [show ({ p with feather_amount := N } : Params).feather_amount = N from rfl,
    show ({ p with feather_amount := N + 1 } : Params).feather_amount = N + 1 from rfl]
  rw [if_pos h0, if_pos (by omega : (0 : Int) < N + 1), if_pos h2,
    if_neg (by omega : ¬(N + 1) % 2 = 0)]

/-! ### Concrete pixel evaluations (Rat arithmetic settled by norm_num) -/

lemma bgr2hsv_green : bgr2hsv ⟨0, 255, 0⟩ = ⟨60, 255, 255⟩ := by
  unfold bgr2hsv
  norm_num [round_eq]
  decide

lemma bgr2hsv_white : bgr2hsv ⟨255, 255, 255⟩ = ⟨0, 0, 255⟩ := by
  unfold bgr2hsv
  norm_num [round_eq]

lemma despillG_green_default : despillG (7 / 10) ⟨0, 255, 0⟩ = 77 := by
  rw [despillG_of_eligible (7 / 10) ⟨0, 255, 0⟩ (by norm_num) (by norm_num)
    (by norm_num) (by constructor <;> decide)]
  norm_num
  decide

lemma despillG_white (s : ℚ) : despillG s ⟨255, 255, 255⟩ = 255 := by
  rw [despillG_of_not_eligible s ⟨255, 255, 255⟩ (by decide)]

lemma rawAlphaOf_scene : rawAlphaOf sceneParams sceneImg = [[0, 255], [255, 255]] := by
  unfold rawAlphaOf sceneImg
  rw [show classifyMask sceneParams
      [[⟨0, 255, 0⟩, ⟨255, 255, 255⟩], [⟨255, 255, 255⟩, ⟨255, 255, 255⟩]]
      = [[255, 0], [0, 0]] from by
    unfold classifyMask
    simp only [List.map_cons, List.map_nil, bgr2hsv_green, bgr2hsv_white]
    norm_num [inRangePx, sceneParams]]
  rw [show refineMask sceneParams [[255, 0], [0, 0]] = [[255, 0], [0, 0]] from by
    unfold refineMask sceneParams
    norm_num]
  unfold rawAlpha
  norm_num

lemma rawAlphaOf_green3 : rawAlphaOf featherParams green3
    = [[0, 0, 0], [0, 0, 0], [0, 0, 0]] := by
  unfold rawAlphaOf green3
  rw [show classifyMask featherParams
      [[⟨0, 255, 0⟩, ⟨0, 255, 0⟩, ⟨0, 255, 0⟩],
       [⟨0, 255, 0⟩, ⟨0, 255, 0⟩, ⟨0, 255, 0⟩],
       [⟨0, 255, 0⟩, ⟨0, 255, 0⟩, ⟨0, 255, 0⟩]]
      = [[255, 255, 255], [255, 255, 255], [255, 255, 255]] from by
    unfold classifyMask
    simp only [List.map_cons, List.map_nil, bgr2hsv_green]
    norm_num [inRangePx, featherParams]]
  rw [show refineMask featherParams [[255, 255, 255], [255, 255, 255], [255, 255, 255]]
      = [[255, 255, 255], [255, 255, 255], [255, 255, 255]] from by
    unfold refineMask featherParams
    norm_num]
  unfold rawAlpha
  norm_num

/-! ### Claim theorems -/

/-- C1: for every pixel, the spill corrector subtracts
`trunc(excess * despill_strength)` from the green channel exactly when green
is strictly greater than `max(red, blue)` and the excess
`max(0, green - max(red, blue))` (computed without unsigned underflow)
exceeds 20; on every other pixel the green channel is left equal to its
input value.  The pipeline's output green channel is exactly the per-pixel
despill map of the input. -/
theorem C1_despill_green_update (s : ℚ) (q : Pix3)
    (hg : q.g ≤ 255) (h0 : 0 ≤ s) (h1 : s ≤ 1) :
    (Eligible q →
      despillG s q = q.g - (⌊((q.g - max q.r q.b : Nat) : ℚ) * s⌋).toNat) ∧
    (¬ Eligible q → despillG s q = q.g) ∧
    (∀ (p : Params) (img : Image Pix3),
      greenCh (processImage p img)
        = img.map (List.map (fun t => despillG p.despill_strength t))) :=
  ⟨despillG_of_eligible s q hg h0 h1, fun h => despillG_of_not_eligible s q h,
    greenCh_processImage⟩

theorem C1_witness :
    despillG (7 / 10) ⟨0, 200, 0⟩
      = 200 - (⌊((200 - max 0 0 : Nat) : ℚ) * (7 / 10)⌋).toNat ∧
    despillG (7 / 10) ⟨255, 255, 255⟩ = 255 :=
  ⟨(C1_despill_green_update (7 / 10) ⟨0, 200, 0⟩ (by norm_num) (by norm_num)
      (by norm_num)).1 (by constructor <;> decide),
    (C1_despill_green_update (7 / 10) ⟨255, 255, 255⟩ (by norm_num) (by norm_num)
      (by norm_num)).2.1 (by decide)⟩

/-- C2: despill strength 0 is a no-op (the output green channel equals the
input green channel at every pixel of the image); strength 1 reduces the
green channel of every despill-eligible pixel to exactly `max(red, blue)`;
in particular a pixel with red=0, blue=0, green=200 yields corrected
green 0. -/
theorem C2_despill_strength_extremes :
    (∀ (p : Params) (img : Image Pix3), p.despill_strength = 0 →
      greenCh (processImage p img) = img.map (List.map Pix3.g)) ∧
    (∀ q : Pix3, q.g ≤ 255 → Eligible q → despillG 1 q = max q.r q.b) ∧
    despillG 1 ⟨0, 200, 0⟩ = 0 := by
  have hone : ∀ q : Pix3, q.g ≤ 255 → Eligible q → despillG 1 q = max q.r q.b := by
    intro q hg he
    rw [despillG_of_eligible 1 q hg (by norm_num) (by norm_num) he, mul_one,
      Int.floor_natCast]
    have := he.1
    omega
  refine ⟨?_, hone, ?_⟩
  · intro p img hp
    rw [greenCh_processImage, hp]
    simp [despillG_zero]
  · rw [hone ⟨0, 200, 0⟩ (by decide) (by constructor <;> decide)]
    decide

theorem C2_witness :
    greenCh (processImage { despill_strength := 0 } greenImg)
      = greenImg.map (List.map Pix3.g) ∧
    despillG 1 ⟨0, 255, 10⟩ = max 10 0 :=
  ⟨C2_despill_strength_extremes.1 { despill_strength := 0 } greenImg rfl,
    C2_despill_strength_extremes.2.1 ⟨0, 255, 10⟩ (by decide)
      (by constructor <;> decide)⟩

/-- C3: with feather 0 the final alpha channel is exactly the inverted
refined mask (the float conversion round trip changes no value), and the
pipeline's output at any positive even feather amount N is identical to its
output at N + 1. -/
theorem C3_feather_normalization :
    (∀ (p : Params) (img : Image Pix3), p.feather_amount = 0 →
      alphaCh (processImage p img) = rawAlphaOf p img) ∧
    (∀ (p : Params) (img : Image Pix3) (N : Int), 0 < N → N % 2 = 0 →
      processImage { p with feather_amount := N } img
        = processImage { p with feather_amount := N + 1 } img) := by
  constructor
  · intro p img hf
    rw [alphaCh_processImage]
    exact featherAlpha_of_feather_zero p _ hf
      (by unfold rawAlphaOf; exact rawAlpha_le255 _)
  · intro p img N h0 h2
    unfold processImage
    congr 1
    exact featherAlpha_even_step p N h0 h2 _

theorem C3_witness :
    alphaCh (processImage sceneParams sceneImg) = rawAlphaOf sceneParams sceneImg ∧
    processImage { sceneParams with feather_amount := 2 } greenImg
      = processImage { sceneParams with feather_amount := 2 + 1 } greenImg :=
  ⟨C3_feather_normalization.1 sceneParams sceneImg rfl,
    C3_feather_normalization.2 sceneParams greenImg 2 (by decide) (by decide)⟩

/-- C4 (counterexample): the claim says a despill strength outside [0,1] or
a negative iteration count makes the invocation fail; on this concrete
input with strength 2.0 and iteration counts −1 the invocation succeeds and
returns an output buffer. -/
theorem C4_counterexample :
    (remove_background_advanced (some whiteImg) badParams).isOk = true := rfl

/-- C4 (amended): the core performs no parameter validation at all: every
invocation on a decodable image returns an output buffer, whatever the
despill strength, feather amount, or iteration counts; the only failure is
a missing/unreadable input image, which fails before any stage runs. -/
theorem C4_no_parameter_validation :
    ∀ (img : Image Pix3) (p : Params),
      (remove_background_advanced (some img) p).isOk = true ∧
      (remove_background_advanced none p).isOk = false :=
  fun _ _ => ⟨rfl, rfl⟩

/-- C5: the classifier marks a pixel background (255) iff hue, saturation
and value each lie inclusively within the bounds; the mask is binary; if
any lower-bound component exceeds the corresponding upper-bound component
no pixel is marked; and the per-pixel classification is the deterministic
function `inRangePx ∘ bgr2hsv` applied pointwise. -/
theorem C5_classifier_characterization :
    (∀ lo hi q : HSV, inRangePx lo hi q = 255 ↔
      (lo.h ≤ q.h ∧ q.h ≤ hi.h ∧ lo.s ≤ q.s ∧ q.s ≤ hi.s ∧
        lo.v ≤ q.v ∧ q.v ≤ hi.v)) ∧
    (∀ lo hi q : HSV, inRangePx lo hi q = 255 ∨ inRangePx lo hi q = 0) ∧
    (∀ lo hi q : HSV, (hi.h < lo.h ∨ hi.s < lo.s ∨ hi.v < lo.v) →
      inRangePx lo hi q = 0) ∧
    (∀ (p : Params) (img : Image Pix3) (i j : Nat),
      i < img.length → j < (img.getD i []).length →
      px (classifyMask p img) 0 i j
        = inRangePx p.lower_green p.upper_green (bgr2hsv (px img ⟨0, 0, 0⟩ i j))) := by
  refine ⟨?_, ?_, ?_, ?_⟩
  · intro lo hi q
    unfold inRangePx
    split <;> simp_all
  · intro lo hi q
    unfold inRangePx
    split <;> simp
  · intro lo hi q hlt
    unfold inRangePx
    rw [if_neg]
    omega
  · intro p img i j hi hj
    unfold classifyMask
    exact px_map_map _ _ _ _ hi hj

theorem C5_witness :
    inRangePx ⟨50, 0, 0⟩ ⟨40, 255, 255⟩ ⟨45, 100, 100⟩ = 0 ∧
    px (classifyMask { } greenImg) 0 0 0
      = inRangePx ⟨35, 100, 100⟩ ⟨85, 255, 255⟩ (bgr2hsv (px greenImg ⟨0, 0, 0⟩ 0 0)) :=
  ⟨C5_classifier_characterization.2.2.1 ⟨50, 0, 0⟩ ⟨40, 255, 255⟩ ⟨45, 100, 100⟩
      (Or.inl (by decide)),
    C5_classifier_characterization.2.2.2 { } greenImg 0 0 (by decide) (by decide)⟩

/-- C6: the spill corrector reads the original (unfeathered) color
channels and modifies only the green channel of eligible pixels: the
output red and blue channels equal the input's at every pixel, the output
green channel is the per-pixel despill map of the input alone, and on
non-eligible pixels the despill map is the identity on green. -/
theorem C6_spill_corrector_frame :
    ∀ (p : Params) (img : Image Pix3),
      redCh (processImage p img) = img.map (List.map Pix3.r) ∧
      blueCh (processImage p img) = img.map (List.map Pix3.b) ∧
      greenCh (processImage p img)
        = img.map (List.map (fun q => despillG p.despill_strength q)) ∧
      (∀ q : Pix3, ¬ Eligible q → despillG p.despill_strength q = q.g) :=
  fun p img => ⟨redCh_processImage p img, blueCh_processImage p img,
    greenCh_processImage p img, fun q h => despillG_of_not_eligible _ q h⟩

theorem C6_witness :
    redCh (processImage sceneParams sceneImg) = sceneImg.map (List.map Pix3.r) ∧
    despillG sceneParams.despill_strength ⟨255, 255, 255⟩ = 255 :=
  ⟨(C6_spill_corrector_frame sceneParams sceneImg).1,
    (C6_spill_corrector_frame sceneParams sceneImg).2.2.2 ⟨255, 255, 255⟩ (by decide)⟩

/-- C7: on an image of any dimensions whose pixels are all classified as
background, the pipeline (with any parameters) produces a 4-channel buffer
of identical dimensions whose alpha channel is 0 at every pixel, borders
included. -/
theorem C7_uniform_background_roundtrip (p : Params) (img : Image Pix3)
    (hbg : ∀ row ∈ img, ∀ q ∈ row,
      inRangePx p.lower_green p.upper_green (bgr2hsv q) = 255) :
    dims (processImage p img) = dims img ∧
    ∀ i j : Nat, px (alphaCh (processImage p img)) 0 i j = 0 := by
  have hmask : AllEq (classifyMask p img) 255 := allEq_map_map _ hbg
  have href : AllEq (refineMask p (classifyMask p img)) 255 :=
    refineMask_allEq255 p hmask
  have hraw : AllEq (rawAlphaOf p img) 0 := by
    unfold rawAlphaOf
    exact rawAlpha_allEq0 href
  have hfeather : AllEq (featherAlpha p (rawAlphaOf p img)) 0 :=
    featherAlpha_allEq0 p hraw
  refine ⟨dims_processImage p img, fun i j => ?_⟩
  rw [alphaCh_processImage]
  exact px_allEq hfeather i j

theorem C7_witness :
    dims (processImage { } greenImg) = dims greenImg ∧
    px (alphaCh (processImage { } greenImg)) 0 0 0 = 0 := by
  have hbg : ∀ row ∈ greenImg, ∀ q ∈ row,
      inRangePx ({ } : Params).lower_green ({ } : Params).upper_green (bgr2hsv q)
        = 255 := by
    intro row hrow q hq
    simp only [greenImg, List.mem_singleton] at hrow
    subst hrow
    simp only [List.mem_singleton] at hq
    subst hq
    rw [bgr2hsv_green]
    decide
  have h := C7_uniform_background_roundtrip { } greenImg hbg
  exact ⟨h.1, h.2 0 0⟩

/-- C8: the 2×2 scenario (one pure-green pixel, three pure-white pixels;
feather 0, erode 0, dilate 0, default bounds): alpha is exactly
[0, 255, 255, 255] and the color channels of the three white pixels are
unchanged (despill does not fire on white, where green is not strictly
dominant); the green pixel's own green channel is despilled to 77. -/
theorem C8_scene_2x2 :
    processImage sceneParams sceneImg
      = [[⟨0, 77, 0, 0⟩, ⟨255, 255, 255, 255⟩],
        [⟨255, 255, 255, 255⟩, ⟨255, 255, 255, 255⟩]] := by
  unfold processImage
  have hA : featherAlpha sceneParams
      (rawAlpha (refineMask sceneParams (classifyMask sceneParams sceneImg)))
      = [[0, 255], [255, 255]] :=
    (featherAlpha_of_feather_zero sceneParams (rawAlphaOf sceneParams sceneImg) rfl
      (by unfold rawAlphaOf; exact rawAlpha_le255 _)).trans rawAlphaOf_scene
  rw [hA]
  have hD : despillImage sceneParams.despill_strength sceneImg
      = [[⟨0, 77, 0⟩, ⟨255, 255, 255⟩], [⟨255, 255, 255⟩, ⟨255, 255, 255⟩]] := by
    unfold despillImage sceneImg sceneParams
    simp only [List.map_cons, List.map_nil, despillG_green_default, despillG_white]
  rw [hD]
  decide

/-- C9: with a positive feather amount, the final alpha strictly equals the
raw (inverted-mask) alpha at every pixel whose blur-kernel footprint lies
entirely inside the image in a region where the raw alpha is uniform; only
boundary bands can change. -/
theorem C9_feather_interior_preservation (p : Params) (img : Image Pix3)
    {h w : Nat} (hR : Rect img h w) (hf : 0 < p.feather_amount) {i j : Nat}
    (hi1 : oddFeather p / 2 ≤ i) (hi2 : i + oddFeather p / 2 < h)
    (hj1 : oddFeather p / 2 ≤ j) (hj2 : j + oddFeather p / 2 < w)
    (hu : ∀ i' j' : Nat, i - oddFeather p / 2 ≤ i' → i' ≤ i + oddFeather p / 2 →
      j - oddFeather p / 2 ≤ j' → j' ≤ j + oddFeather p / 2 →
      px (rawAlphaOf p img) 0 i' j' = px (rawAlphaOf p img) 0 i j) :
    px (alphaCh (processImage p img)) 0 i j = px (rawAlphaOf p img) 0 i j := by
  rw [alphaCh_processImage, featherAlpha_of_pos p _ hf]
  set k := oddFeather p with hk
  have hk1 : 1 ≤ k := oddFeather_pos hf
  set A := rawAlphaOf p img with hA
  have hRA : Rect A h w := rect_of_dims_eq (dims_rawAlphaOf p img) hR
  set F : Image ℚ := A.map (List.map (fun (a : Nat) => (a : ℚ) / 255)) with hF
  have hRF : Rect F h w := rect_of_dims_eq (dims_map _ A) hRA
  have hRB : Rect (gaussianBlur k F) h w :=
    rect_of_dims_eq (dims_gaussianBlur k F) hRF
  have hiB : i < (gaussianBlur k F).length := by
    rw [hRB.1]
    omega
  have hjB : j < ((gaussianBlur k F).getD i []).length := by
    rw [rect_row_length hRB (show i < h by omega)]
    omega
  rw [px_map_map (fun q => trunc8 (q * 255)) _ 0 0 hiB hjB]
  have hc : px (gaussianBlur k F) 0 i j = ((px A 0 i j : Nat) : ℚ) / 255 := by
    refine gaussianBlur_uniform k hk1 F hRF hi1 hi2 hj1 hj2 _ ?_
    intro i' j' h1 h2 h3 h4
    have hi' : i' < h := by omega
    have hiA : i' < A.length := by
      rw [hRA.1]
      exact hi'
    have hjA : j' < (A.getD i' []).length := by
      rw [rect_row_length hRA hi']
      omega
    rw [hF, px_map_map (fun (a : Nat) => (a : ℚ) / 255) A 0 0 hiA hjA,
      hu i' j' h1 h2 h3 h4]
  rw [hc]
  exact trunc8_roundtrip (by rw [hA]; unfold rawAlphaOf; exact px_rawAlpha_le255 _ i j)

theorem C9_witness :
    px (alphaCh (processImage featherParams green3)) 0 1 1
      = px (rawAlphaOf featherParams green3) 0 1 1 := by
  refine C9_feather_interior_preservation featherParams green3
    (show Rect green3 3 3 from ⟨rfl, by decide⟩)
    (by decide) (by decide) (by decide) (by decide) (by decide) ?_
  intro i' j' h1 h2 h3 h4
  rw [rawAlphaOf_green3]
  have hi' : i' ≤ 2 := by
    have : oddFeather featherParams / 2 = 1 := by decide
    omega
  have hj' : j' ≤ 2 := by
    have : oddFeather featherParams / 2 = 1 := by decide
    omega
  interval_cases i' <;> interval_cases j' <;> rfl

/-- C10: for despill strength in [0, 1] the subtraction never wraps the
8-bit range: on eligible pixels the corrected green lies between
`max(red, blue)` and the original green inclusive, on all other pixels
green is untouched, and the result stays within [0, 255] with no explicit
clamping step. -/
theorem C10_despill_no_wraparound (s : ℚ) (q : Pix3) (hg : q.g ≤ 255)
    (h0 : 0 ≤ s) (h1 : s ≤ 1) :
    (Eligible q → max q.r q.b ≤ despillG s q ∧ despillG s q ≤ q.g) ∧
    (¬ Eligible q → despillG s q = q.g) ∧ despillG s q ≤ 255 := by
  by_cases he : Eligible q
  · have hE := despillG_of_eligible s q hg h0 h1 he
    have hfl : (⌊((q.g - max q.r q.b : Nat) : ℚ) * s⌋) ≤ ((q.g - max q.r q.b : Nat) : Int) := by
      have hle : ((q.g - max q.r q.b : Nat) : ℚ) * s ≤ ((q.g - max q.r q.b : Nat) : ℚ) :=
        mul_le_of_le_one_right (by positivity) h1
      have := Int.floor_le_floor hle
      simpa using this
    have hmax := he.1
    refine ⟨fun _ => ⟨?_, ?_⟩, fun hn => absurd he hn, ?_⟩
    · rw [hE]
      omega
    · rw [hE]
      omega
    · rw [hE]
      omega
  · have hN := despillG_of_not_eligible s q he
    refine ⟨fun hy => absurd hy he, fun _ => hN, ?_⟩
    rw [hN]
    exact hg

theorem C10_witness :
    max 10 0 ≤ despillG (1 / 2) ⟨0, 255, 10⟩ ∧ despillG (1 / 2) ⟨0, 255, 10⟩ ≤ 255 := by
  have hth := C10_despill_no_wraparound (1 / 2) ⟨0, 255, 10⟩ (by decide)
    (by norm_num) (by norm_num)
  exact ⟨(hth.1 (by constructor <;> decide)).1, hth.2.2⟩

end ChromaKey
